import Mathlib

/-!
Verification of the IELTS English Speaking Coach conversation engine.

The definitions below are shallow embeddings of the Python modules
`audio/pause_detector.py`, `audio/audio_capture.py`, `engine/buffer_manager.py`,
`engine/conversation_state.py`, `engine/memory.py` and `engine/turn_manager.py`.
Mutable objects become explicit state records, methods become functions from
state to state, wall-clock time becomes an explicit rational parameter, and
calls into external collaborators (STT, LLM, TTS) become `Except`-valued
functions supplied by the caller. Fields that only feed debug output
(wall-clock speech duration, VAD confidence bookkeeping) are omitted.
-/

set_option maxRecDepth 8000

namespace IELTSCoach

/-! ## Pause detection state machine (`audio/pause_detector.py`) -/

/-- States of the pause detection state machine (`PauseState` in the source). -/
inductive PauseState
  | silence
  | speechStarted
  | speaking
  | maybeDone
  | turnComplete
deriving DecidableEq, Repr

/-- State of a `PauseDetector` object: configuration (chunk thresholds) plus
the mutable fields `_state`, `_speech_chunk_count`, `_silence_chunk_count`.
The wall-clock field `_speech_start_time` only feeds the debug stats and is
omitted. -/
structure PauseDetector where
  pauseThresholdChunks : Nat
  minSpeechChunks : Nat
  state : PauseState
  speechChunkCount : Nat
  silenceChunkCount : Nat
deriving DecidableEq, Repr

namespace PauseDetector

/-- Freshly constructed detector (`PauseDetector.__init__`), parametrised
directly by the computed chunk thresholds. -/
def init (pauseThresholdChunks minSpeechChunks : Nat) : PauseDetector :=
  { pauseThresholdChunks := pauseThresholdChunks
    minSpeechChunks := minSpeechChunks
    state := .silence
    speechChunkCount := 0
    silenceChunkCount := 0 }

/-- One step of `PauseDetector.process(is_speech)`. Each source branch tests
`is_speech`, so the embedding matches on the state and the boolean together. -/
def process (d : PauseDetector) (isSpeech : Bool) : PauseDetector :=
  match d.state, isSpeech with
  | .silence, true =>
      { d with state := .speechStarted, speechChunkCount := 1, silenceChunkCount := 0 }
  | .silence, false => d
  | .speechStarted, true =>
      if d.minSpeechChunks ≤ d.speechChunkCount + 1 then
        { d with state := .speaking, speechChunkCount := d.speechChunkCount + 1 }
      else
        { d with speechChunkCount := d.speechChunkCount + 1 }
  | .speechStarted, false =>
      { d with state := .silence, speechChunkCount := 0 }
  | .speaking, true => { d with silenceChunkCount := 0 }
  | .speaking, false => { d with state := .maybeDone, silenceChunkCount := 1 }
  | .maybeDone, true => { d with state := .speaking, silenceChunkCount := 0 }
  | .maybeDone, false =>
      if d.pauseThresholdChunks ≤ d.silenceChunkCount + 1 then
        { d with state := .turnComplete, silenceChunkCount := d.silenceChunkCount + 1 }
      else
        { d with silenceChunkCount := d.silenceChunkCount + 1 }
  | .turnComplete, _ => d

/-- `PauseDetector.reset()`. -/
def reset (d : PauseDetector) : PauseDetector :=
  { d with state := .silence, speechChunkCount := 0, silenceChunkCount := 0 }

/-- Feed a whole sequence of VAD results through `process`. -/
def run (d : PauseDetector) (seq : List Bool) : PauseDetector :=
  seq.foldl process d

/-- Number of times the `on_turn_complete` callback fires along a sequence:
the callback is invoked exactly on the step whose `process` call moves the
state into `TURN_COMPLETE`. -/
def fireCount (d : PauseDetector) : List Bool → Nat
  | [] => 0
  | b :: rest =>
      (if (d.process b).state = .turnComplete ∧ d.state ≠ .turnComplete then 1 else 0)
      + fireCount (d.process b) rest

end PauseDetector

/-- The sequence ends with a run of `k` consecutive speech chunks. -/
def endsWithRun (k : Nat) (seq : List Bool) : Prop :=
  ∃ pre, seq = pre ++ List.replicate k true

/-- Somewhere in the sequence there are at least `k` consecutive speech
chunks. -/
def hasRun (k : Nat) (seq : List Bool) : Prop :=
  ∃ pre post, seq = pre ++ List.replicate k true ++ post

namespace PauseDetector

/-- Invariant tying a detector run to the history of VAD results it has
seen: in `SPEECH_STARTED` the speech-chunk counter counts a trailing run of
speech chunks, and any state at or beyond `SPEAKING` certifies that a run of
at least `min_speech_chunks` consecutive speech chunks has occurred. -/
def SpeechInv (m : Nat) (seq : List Bool) (d : PauseDetector) : Prop :=
  (d.state = .speechStarted → 1 ≤ d.speechChunkCount ∧ endsWithRun d.speechChunkCount seq)
  ∧ ((d.state = .speaking ∨ d.state = .maybeDone ∨ d.state = .turnComplete) →
      hasRun m seq)

end PauseDetector


/-! ## Audio accumulation buffer (`AudioBuffer` in `audio/audio_capture.py`) -/

/-- The audio accumulator state: the list `_frames` of stored chunks. The
internal lock serialises the method bodies, so each method is a function on
this state; samples are modelled as integers. -/
abbrev AudioBuffer := List (List Int)

namespace AudioBuffer

/-- Freshly constructed buffer. -/
def empty : AudioBuffer := []

/-- `AudioBuffer.add_frame`: append (a copy of) the chunk. -/
def addFrame (b : AudioBuffer) (f : List Int) : AudioBuffer := b ++ [f]

/-- `AudioBuffer.get_audio`: concatenate all stored chunks. -/
def getAudio (b : AudioBuffer) : List Int := b.flatten

/-- `AudioBuffer.clear`. -/
def clear (_ : AudioBuffer) : AudioBuffer := []

/-- The spec's `drain()`: `get_audio` followed by `clear`, returning the
concatenated audio and the emptied buffer (this is exactly how
`AudioCapture._process_chunk` consumes the buffer on `TURN_COMPLETE`). -/
def drain (b : AudioBuffer) : List Int × AudioBuffer := (b.flatten, [])

/-- `AudioBuffer.is_empty`. -/
def emptyCheck (b : AudioBuffer) : Bool := b.isEmpty

end AudioBuffer

/-! ## Frame chunking (`AudioCapture.process_audio_frame`, `config.py`) -/

/-- `config.AUDIO_CHUNK_SAMPLES`. -/
def AUDIO_CHUNK_SAMPLES : Nat := 512

/-- The chunking loop of `AudioCapture.process_audio_frame`: the frame is
sliced at offsets `0, 512, 1024, …` (`range(0, len, chunk_size)`), and a
short final slice is padded with zero samples to the full chunk size. Each
call chunks its own frame only; no remainder state is threaded between
calls. -/
def chunkFrame (audio : List Int) : List (List Int) :=
  (List.range ((audio.length + AUDIO_CHUNK_SAMPLES - 1) / AUDIO_CHUNK_SAMPLES)).map
    fun i =>
      let chunk := (audio.drop (i * AUDIO_CHUNK_SAMPLES)).take AUDIO_CHUNK_SAMPLES
      chunk ++ List.replicate (AUDIO_CHUNK_SAMPLES - chunk.length) 0

/-- `ConversationState` in the source. -/
inductive ConversationState
  | idle
  | listening
  | processing
  | speaking
  | buffering
deriving DecidableEq, Repr

/-- The `_VALID_TRANSITIONS` table. -/
def validTransitions : ConversationState → List ConversationState
  | .idle => [.listening]
  | .listening => [.processing, .idle]
  | .processing => [.speaking, .listening]
  | .speaking => [.listening, .buffering, .idle]
  | .buffering => [.processing, .listening]

/-- Python's `lst[-k:]` slice (keep the last `k` elements). Note that for
`k = 0` Python returns the whole list, not the empty one. -/
def lastSlice (k : Nat) (l : List α) : List α :=
  if k = 0 then l else l.drop (l.length - k)

/-- State of a `ConversationStateMachine` object: `_state` plus the bounded
`_transition_history` of (from, to) pairs. Per-entry wall-clock timestamps
and `_state_enter_time` only feed the debug status and are omitted. -/
structure ConversationStateMachine where
  state : ConversationState
  transitionHistory : List (ConversationState × ConversationState)
deriving DecidableEq, Repr

namespace ConversationStateMachine

/-- Freshly constructed machine. -/
def init : ConversationStateMachine := { state := .idle, transitionHistory := [] }

/-- `transition_to(new_state)`. Raising `ValueError` — whose message names
the offending (from, to) pair — is modelled as `Except.error (from, to)`;
the raise happens before any mutation, so the machine is untouched in the
error case. -/
def transitionTo (sm : ConversationStateMachine) (newState : ConversationState) :
    Except (ConversationState × ConversationState) ConversationStateMachine :=
  if newState ∈ validTransitions sm.state then
    .ok { state := newState
          transitionHistory :=
            if 100 < (sm.transitionHistory ++ [(sm.state, newState)]).length then
              lastSlice 50 (sm.transitionHistory ++ [(sm.state, newState)])
            else sm.transitionHistory ++ [(sm.state, newState)] }
  else
    .error (sm.state, newState)

/-- `reset()` (bypasses transition validation). -/
def reset (_ : ConversationStateMachine) : ConversationStateMachine :=
  { state := .idle, transitionHistory := [] }

end ConversationStateMachine

/-! ## Smart response buffer (`engine/buffer_manager.py`) -/

/-- `BufferAction` in the source. -/
inductive BufferAction
  | CONTINUE
  | MERGE
  | DROP
  | NONE
deriving DecidableEq, Repr

/-- The three `BUFFER_*` settings of `config.py`, passed explicitly so that
theorems can range over all configurations; `defaultBufferConfig` records
the shipped values. Scores and ages are modelled as rationals. -/
structure BufferConfig where
  BUFFER_RELEVANCE_THRESHOLD : ℚ
  BUFFER_MAX_AGE_MS : ℚ
  BUFFER_MERGE_ENABLED : Bool
deriving DecidableEq, Repr

/-- The values in `config.py`: threshold 0.6, max age 10 s, merging on. -/
def defaultBufferConfig : BufferConfig :=
  { BUFFER_RELEVANCE_THRESHOLD := 0.6
    BUFFER_MAX_AGE_MS := 10000
    BUFFER_MERGE_ENABLED := true }

/-- `BufferedResponse`: a buffered AI response. `created_at` is the wall
clock at `store` time; methods taking the current time receive it as the
explicit parameter `now`. -/
structure BufferedResponse where
  text : String
  createdAt : ℚ
  contextSummary : String
  relevanceScore : Option ℚ
deriving DecidableEq, Repr

namespace BufferedResponse

/-- `age_ms`: `(time.time() - created_at) * 1000`. -/
def ageMs (b : BufferedResponse) (now : ℚ) : ℚ := (now - b.createdAt) * 1000

/-- `is_expired`: age strictly above `BUFFER_MAX_AGE_MS`. -/
def isExpired (cfg : BufferConfig) (b : BufferedResponse) (now : ℚ) : Bool :=
  decide (cfg.BUFFER_MAX_AGE_MS < b.ageMs now)

end BufferedResponse

/-- The reason recorded with a buffer decision. The source stores an
interpolated message string; the embedding keeps the message template. -/
inductive DecisionReason
  | expired
  | userChangedTopics
  | relevantMerging
  | relevantUsingAsIs
  | lowRelevance
  | noRelevanceScore
deriving DecidableEq, Repr

/-- One entry of `_decision_history`. -/
structure DecisionRecord where
  action : BufferAction
  reason : DecisionReason
  bufferAgeMs : ℚ
  relevanceScore : Option ℚ
  topicChanged : Bool
  timestamp : ℚ
deriving DecidableEq, Repr

/-- State of a `BufferManager` object: `_buffer` and `_decision_history`. -/
structure BufferManager where
  buffer : Option BufferedResponse
  decisionHistory : List DecisionRecord
deriving DecidableEq, Repr

namespace BufferManager

/-- Freshly constructed manager. -/
def init : BufferManager := { buffer := none, decisionHistory := [] }

/-- `store(response_text, context_summary)`. -/
def store (m : BufferManager) (responseText contextSummary : String) (now : ℚ) :
    BufferManager :=
  { m with buffer := some { text := responseText, createdAt := now,
                            contextSummary := contextSummary, relevanceScore := none } }

/-- History trimming: append, then keep the last 25 entries once the length
exceeds 50. -/
def boundHistory (hist : List DecisionRecord) : List DecisionRecord :=
  if 50 < hist.length then lastSlice 25 hist else hist

/-- `clear()`. -/
def clearBuf (m : BufferManager) : BufferManager := { m with buffer := none }

end BufferManager

/-- `BufferManager.decide(new_user_input, relevance_score, topic_changed)`:
returns the `(action, buffered_response)` pair and the updated manager
state. `new_user_input` is accepted but (as in the source) unused by the
decision itself; `now` is the wall clock read by `age_ms`/`is_expired` and
the history timestamp. -/
def BufferManager.decide (cfg : BufferConfig) (m : BufferManager)
    (_newUserInput : String) (relevanceScore : Option ℚ) (topicChanged : Bool)
    (now : ℚ) : (BufferAction × Option BufferedResponse) × BufferManager :=
  match m.buffer with
  | none => ((.NONE, none), m)
  | some buffer =>
      let choice : BufferAction × DecisionReason × BufferedResponse :=
        if buffer.isExpired cfg now then (.DROP, .expired, buffer)
        else if topicChanged then (.DROP, .userChangedTopics, buffer)
        else
          match relevanceScore with
          | some score =>
              if cfg.BUFFER_RELEVANCE_THRESHOLD ≤ score then
                if cfg.BUFFER_MERGE_ENABLED then
                  (.MERGE, .relevantMerging, { buffer with relevanceScore := some score })
                else
                  (.CONTINUE, .relevantUsingAsIs, { buffer with relevanceScore := some score })
              else (.DROP, .lowRelevance, { buffer with relevanceScore := some score })
          | none => (.DROP, .noRelevanceScore, buffer)
      let record : DecisionRecord :=
        { action := choice.1, reason := choice.2.1, bufferAgeMs := buffer.ageMs now
          relevanceScore := relevanceScore, topicChanged := topicChanged, timestamp := now }
      ((choice.1, some choice.2.2),
       { buffer := none
         decisionHistory := BufferManager.boundHistory (m.decisionHistory ++ [record]) })

/-- The decision order exactly as the spec lists it, written from the
spec's words for comparison with `BufferManager.decide`: (1) no buffer →
NONE; (2) age over max-age → DROP; (3) topic changed → DROP; (4) absent
relevance score → DROP; (5) score at or above the threshold → MERGE if
merging is enabled else CONTINUE; (6) otherwise DROP. -/
def decideActionSpec (cfg : BufferConfig) (m : BufferManager)
    (relevanceScore : Option ℚ) (topicChanged : Bool) (now : ℚ) : BufferAction :=
  match m.buffer with
  | none => .NONE
  | some buffer =>
      if cfg.BUFFER_MAX_AGE_MS < buffer.ageMs now then .DROP
      else if topicChanged then .DROP
      else
        match relevanceScore with
        | none => .DROP
        | some score =>
            if cfg.BUFFER_RELEVANCE_THRESHOLD ≤ score then
              if cfg.BUFFER_MERGE_ENABLED then .MERGE else .CONTINUE
            else .DROP

/-! ## Conversation memory (`engine/memory.py`) -/

/-- In-session state of `ConversationMemory`: the rolling `_turns` window as
(role, content) pairs with its `_max_turns` bound. Timestamps, metadata and
the SQLite persistence side channel are external effects and omitted. -/
structure ConversationMemory where
  maxTurns : Nat
  turns : List (String × String)
deriving DecidableEq, Repr

namespace ConversationMemory

/-- `add_turn(role, content)`: append, then trim to the last `_max_turns`
entries when the bound is exceeded. -/
def addTurn (mem : ConversationMemory) (role content : String) : ConversationMemory :=
  { mem with turns :=
      if mem.maxTurns < (mem.turns ++ [(role, content)]).length then
        lastSlice mem.maxTurns (mem.turns ++ [(role, content)])
      else mem.turns ++ [(role, content)] }

/-- `get_context()`: the rolling window in order. -/
def getContext (mem : ConversationMemory) : List (String × String) := mem.turns

end ConversationMemory

/-! ## Turn orchestration (`engine/turn_manager.py`) -/

/-- Python's `str.strip()`: drop whitespace from both ends (the on-list
definition keeps kernel reduction possible, unlike `String.trim`). -/
def pyStrip (s : String) : String :=
  String.mk (((s.data.dropWhile Char.isWhitespace).reverse.dropWhile Char.isWhitespace).reverse)

/-- The fields of the dict returned by `SpeechToText.transcribe` used by the
turn manager (`language`/`segments` are unused there). -/
structure TranscriptionResult where
  text : String
  confidence : ℚ
deriving DecidableEq, Repr

/-- The dict returned by `TurnManager.process_turn` on a processed turn. -/
structure TurnResult where
  userText : String
  aiResponse : String
  aiAudioBytes : Option (List Nat)
  bufferAction : BufferAction
  transcriptionConfidence : ℚ
deriving DecidableEq, Repr

/-- The injected external collaborators. Each call may raise, modelled as
`Except.error` carrying the exception message. `llm_*` hooks are optional
exactly as in the source. -/
structure Collaborators where
  sttTranscribe : List Int → Except String TranscriptionResult
  llmGenerate : Option (String → List (String × String) → Except String String)
  llmClassifyRelevance : Option (String → String → Except String ℚ)
  llmMergeResponse : Option (String → String → Except String String)
  ttsSynthesizeToWavBytes : String → Except String (List Nat)

/-- State owned (directly or through collaborator objects) by a
`TurnManager`: the conversation state machine, the queue of completed turn
audio held by `AudioCapture`, the buffer manager, the conversation memory
and `_last_user_text`. -/
structure TurnManager where
  conv : ConversationStateMachine
  completedTurns : List (List Int)
  buffer : BufferManager
  memory : ConversationMemory
  lastUserText : String
deriving DecidableEq, Repr

/-- Step 2 of `process_turn`: consult the response buffer. Returns the
buffer action, the AI response text chosen so far (empty when a fresh
response must be generated) and the updated state, or propagates a raised
collaborator exception together with the state at the raise point. -/
def TurnManager.bufferStep (env : Collaborators) (cfg : BufferConfig) (now : ℚ)
    (tm : TurnManager) (userText : String) :
    Except (String × TurnManager) (BufferAction × String × TurnManager) :=
  match tm.buffer.buffer with
  | none => .ok (.NONE, "", tm)
  | some buffered0 =>
      match (match env.llmClassifyRelevance with
             | some classify =>
                 (classify buffered0.text userText).map fun r => (r, decide (r < 0.3))
             | none => .ok ((0 : ℚ), false)) with
      | .error e => .error (e, tm)
      | .ok (relevance, topicChanged) =>
          match BufferManager.decide cfg tm.buffer userText (some relevance) topicChanged now with
          | ((action, buffered), buf2) =>
              if action = .MERGE then
                match env.llmMergeResponse, buffered with
                | some mergeFn, some b =>
                    match mergeFn b.text userText with
                    | .error e => .error (e, { tm with buffer := buf2 })
                    | .ok merged => .ok (action, merged, { tm with buffer := buf2 })
                | _, _ => .ok (action, "", { tm with buffer := buf2 })
              else if action = .CONTINUE then
                match buffered with
                | some b => .ok (action, b.text, { tm with buffer := buf2 })
                | none => .ok (action, "", { tm with buffer := buf2 })
              else .ok (action, "", { tm with buffer := buf2 })

/-- Steps 2–5 of `process_turn`, entered once a non-empty transcript is in
hand: buffer decision, fresh generation (adding the user turn to memory
first), assistant-turn bookkeeping, natural delay (no observable state) and
speech synthesis with the `SPEAKING` transition (whose `ValueError` is
swallowed by the source's `try/except: pass`). -/
def TurnManager.finishTurn (env : Collaborators) (cfg : BufferConfig) (now : ℚ)
    (tm : TurnManager) (userText : String) (confidence : ℚ) :
    Except (String × TurnManager) (Option TurnResult × TurnManager) :=
  match TurnManager.bufferStep env cfg now tm userText with
  | .error e => .error e
  | .ok (bufferAction, ai0, tm2) =>
      match (if ai0 = "" then
               match env.llmGenerate with
               | some gen =>
                   match gen userText ((tm2.memory.addTurn "user" userText).getContext) with
                   | .error e =>
                       .error (e, { tm2 with memory := tm2.memory.addTurn "user" userText })
                   | .ok txt =>
                       .ok (txt, { tm2 with memory := tm2.memory.addTurn "user" userText })
               | none => .ok (ai0, tm2)
             else .ok (ai0, tm2) :
             Except (String × TurnManager) (String × TurnManager)) with
      | .error e => .error e
      | .ok (ai, tm3) =>
          if ai = "" then
            .ok (some { userText := userText, aiResponse := ai, aiAudioBytes := none,
                        bufferAction := bufferAction, transcriptionConfidence := confidence },
                 tm3)
          else
            match env.ttsSynthesizeToWavBytes ai with
            | .error e =>
                .error (e, { tm3 with memory := tm3.memory.addTurn "assistant" ai })
            | .ok wav =>
                .ok (some { userText := userText, aiResponse := ai, aiAudioBytes := some wav,
                            bufferAction := bufferAction, transcriptionConfidence := confidence },
                     { tm3 with
                        memory := tm3.memory.addTurn "assistant" ai
                        conv :=
                          match (tm3.conv.transitionTo .speaking) with
                          | .ok c => c
                          | .error _ => tm3.conv })

/-- `TurnManager.process_turn`. Wall-clock reads are the parameter `now`;
UI callbacks (`_on_transcription`, `_on_ai_response`, `_on_state_change`)
and `time.sleep` have no effect on the modelled state. A `ValueError` from
`start_processing` is caught (busy → return `None`); exceptions raised by
collaborators propagate as `Except.error` carrying the message and the
state at the raise point, since the source wraps none of those calls. -/
def TurnManager.processTurn (env : Collaborators) (cfg : BufferConfig) (now : ℚ)
    (tm : TurnManager) :
    Except (String × TurnManager) (Option TurnResult × TurnManager) :=
  match tm.completedTurns with
  | [] => .ok (none, tm)
  | audioData :: rest =>
      if audioData.length = 0 then .ok (none, { tm with completedTurns := rest })
      else
        match tm.conv.transitionTo .processing with
        | .error _ => .ok (none, { tm with completedTurns := rest })
        | .ok conv1 =>
            match env.sttTranscribe audioData with
            | .error e => .error (e, { tm with completedTurns := rest, conv := conv1 })
            | .ok transcription =>
                if pyStrip transcription.text = "" then
                  match conv1.transitionTo .listening with
                  | .error _ =>
                      .error ("ValueError: invalid transition",
                              { tm with completedTurns := rest, conv := conv1 })
                  | .ok conv2 =>
                      .ok (none, { tm with completedTurns := rest, conv := conv2 })
                else
                  TurnManager.finishTurn env cfg now
                    { tm with completedTurns := rest, conv := conv1,
                              lastUserText := pyStrip transcription.text }
                    (pyStrip transcription.text) transcription.confidence


/-! ## Capture pipeline (`AudioCapture._process_chunk`) -/

/-- State touched by `AudioCapture._process_chunk`: the pause detector, the
accumulation buffer and the queue of completed turns. Chunks are abstract
tokens of type `χ` (a concrete 512-sample array in the source); the VAD
verdict for each chunk arrives as the paired boolean. -/
structure CaptureState (χ : Type) where
  detector : PauseDetector
  buffer : List χ
  completedTurns : List (List χ)
deriving DecidableEq, Repr

/-- Fresh `AudioCapture` state (detector thresholds passed through). -/
def initCapture (χ : Type) (p m : Nat) : CaptureState χ :=
  { detector := PauseDetector.init p m, buffer := [], completedTurns := [] }

/-- One `_process_chunk` call: feed the VAD verdict to the pause detector,
then manage the buffer according to the new state — accumulate during
`SPEAKING`/`MAYBE_DONE`, flush the buffer to the completed-turn queue and
reset the detector on `TURN_COMPLETE`, and discard a false start when the
detector fell back from `SPEECH_STARTED` to `SILENCE`. -/
def processChunk {χ : Type} (s : CaptureState χ) (chunk : χ) (isSpeech : Bool) :
    CaptureState χ :=
  let newDetector := s.detector.process isSpeech
  if newDetector.state = .speaking ∨ newDetector.state = .maybeDone then
    { s with detector := newDetector, buffer := s.buffer ++ [chunk] }
  else if newDetector.state = .turnComplete then
    if s.buffer.isEmpty then
      { s with detector := newDetector.reset }
    else
      { detector := newDetector.reset
        buffer := []
        completedTurns := s.completedTurns ++ [s.buffer] }
  else if newDetector.state = .silence ∧ s.detector.state = .speechStarted then
    { s with detector := newDetector, buffer := [] }
  else
    { s with detector := newDetector }

/-- Feed a sequence of (chunk, VAD verdict) pairs through `_process_chunk`. -/
def runCapture {χ : Type} (s : CaptureState χ) (ins : List (χ × Bool)) :
    CaptureState χ :=
  ins.foldl (fun acc cb => processChunk acc cb.1 cb.2) s

/-- Buffer invariant of the capture pipeline: while the detector sits in
`SILENCE` or `SPEECH_STARTED`, the accumulation buffer is empty. -/
def CaptureInv {χ : Type} (s : CaptureState χ) : Prop :=
  (s.detector.state = .silence ∨ s.detector.state = .speechStarted) → s.buffer = []

/-! ## Concrete fixtures used by the orchestrator theorems -/

/-- Collaborators whose LLM generate hook raises (STT succeeds). -/
def failingCollaborators : Collaborators :=
  { sttTranscribe := fun _ => .ok { text := "hello", confidence := 1 }
    llmGenerate := some fun _ _ => .error "llm failure"
    llmClassifyRelevance := none
    llmMergeResponse := none
    ttsSynthesizeToWavBytes := fun _ => .ok [0] }

/-- Collaborators whose STT returns a whitespace-only transcript. -/
def whitespaceCollaborators : Collaborators :=
  { sttTranscribe := fun _ => .ok { text := "   ", confidence := 1 }
    llmGenerate := none
    llmClassifyRelevance := none
    llmMergeResponse := none
    ttsSynthesizeToWavBytes := fun _ => .ok [] }

/-- A turn manager in `Listening` with one pending completed turn. -/
def listeningTurnManager : TurnManager :=
  { conv := { state := .listening, transitionHistory := [] }
    completedTurns := [[1]]
    buffer := BufferManager.init
    memory := { maxTurns := 20, turns := [] }
    lastUserText := "" }

/-- A buffered response stored at time 0. -/
def sampleBuffered : BufferedResponse :=
  { text := "r", createdAt := 0, contextSummary := "", relevanceScore := none }

/-- A buffer manager holding `sampleBuffered`. -/
def sampleBufferManager : BufferManager :=
  { buffer := some sampleBuffered, decisionHistory := [] }

/-! ## Lemmas and claim theorems -/

namespace PauseDetector

@[simp] theorem run_nil (d : PauseDetector) : d.run [] = d := rfl

theorem run_append (d : PauseDetector) (s t : List Bool) :
    d.run (s ++ t) = (d.run s).run t := by
  simp [run, List.foldl_append]

theorem run_singleton_append (d : PauseDetector) (s : List Bool) (b : Bool) :
    d.run (s ++ [b]) = (d.run s).process b := by
  simp [run, List.foldl_append]

@[simp] theorem process_minSpeechChunks (d : PauseDetector) (b : Bool) :
    (d.process b).minSpeechChunks = d.minSpeechChunks := by
  cases hs : d.state <;> cases b <;> simp only [process, hs] <;> split <;> rfl

@[simp] theorem run_minSpeechChunks (d : PauseDetector) (seq : List Bool) :
    (d.run seq).minSpeechChunks = d.minSpeechChunks := by
  induction seq generalizing d with
  | nil => rfl
  | cons b rest ih =>
      show ((d.process b).run rest).minSpeechChunks = _
      rw [ih, process_minSpeechChunks]

/-- `TURN_COMPLETE` is absorbing: `process` is the identity there. -/
theorem process_turnComplete {d : PauseDetector} (h : d.state = .turnComplete)
    (b : Bool) : d.process b = d := by
  cases b <;> simp only [process, h]

theorem run_turnComplete {d : PauseDetector} (h : d.state = .turnComplete)
    (seq : List Bool) : d.run seq = d := by
  induction seq with
  | nil => rfl
  | cons b rest ih =>
      show (d.process b).run rest = d
      rw [process_turnComplete h b, ih]

end PauseDetector

theorem hasRun_append_right {k : Nat} {s : List Bool} (t : List Bool)
    (h : hasRun k s) : hasRun k (s ++ t) := by
  obtain ⟨pre, post, rfl⟩ := h
  exact ⟨pre, post ++ t, by simp⟩

theorem endsWithRun_extend {k : Nat} {s : List Bool} (h : endsWithRun k s) :
    endsWithRun (k + 1) (s ++ [true]) := by
  obtain ⟨pre, rfl⟩ := h
  exact ⟨pre, by simp [List.replicate_succ']⟩

theorem endsWithRun_one (s : List Bool) : endsWithRun 1 (s ++ [true]) :=
  ⟨s, by simp⟩

theorem hasRun_of_endsWithRun {m k : Nat} {s : List Bool} (hle : m ≤ k)
    (h : endsWithRun k s) : hasRun m s := by
  obtain ⟨pre, rfl⟩ := h
  refine ⟨pre ++ List.replicate (k - m) true, [], ?_⟩
  have : List.replicate k true = List.replicate (k - m) true ++ List.replicate m true := by
    rw [← List.replicate_add]
    congr 1
    omega
  rw [this]
  simp

namespace PauseDetector

theorem speechInv_step {m : Nat} {s : List Bool} {d : PauseDetector}
    (hm : d.minSpeechChunks = m) (inv : SpeechInv m s d) (b : Bool) :
    SpeechInv m (s ++ [b]) (d.process b) := by
  obtain ⟨ihStart, ihSpeak⟩ := inv
  cases hs : d.state with
  | silence =>
      cases b with
      | true =>
          simp only [process, hs]
          refine ⟨fun _ => ⟨Nat.le_refl 1, endsWithRun_one s⟩, fun h => ?_⟩
          rcases h with h | h | h <;> exact PauseState.noConfusion h
      | false =>
          simp only [process, hs]
          refine ⟨fun h => ?_, fun h => ?_⟩
          · rw [hs] at h; exact PauseState.noConfusion h
          · rw [hs] at h
            rcases h with h | h | h <;> exact PauseState.noConfusion h
  | speechStarted =>
      obtain ⟨hc1, hrun⟩ := ihStart hs
      cases b with
      | true =>
          simp only [process, hs]
          by_cases hge : d.minSpeechChunks ≤ d.speechChunkCount + 1
          · rw [if_pos hge]
            refine ⟨fun h => PauseState.noConfusion h, fun _ => ?_⟩
            exact hasRun_of_endsWithRun (hm ▸ hge) (endsWithRun_extend hrun)
          · rw [if_neg hge]
            refine ⟨fun _ => ⟨Nat.le_succ_of_le hc1, endsWithRun_extend hrun⟩, fun h => ?_⟩
            rcases h with h | h | h <;> exact PauseState.noConfusion h
      | false =>
          simp only [process, hs]
          refine ⟨fun h => PauseState.noConfusion h, fun h => ?_⟩
          rcases h with h | h | h <;> exact PauseState.noConfusion h
  | speaking =>
      have hrun := hasRun_append_right [b] (ihSpeak (Or.inl hs))
      cases b with
      | true =>
          simp only [process, hs]
          exact ⟨fun h => PauseState.noConfusion h, fun _ => hrun⟩
      | false =>
          simp only [process, hs]
          exact ⟨fun h => PauseState.noConfusion h, fun _ => hrun⟩
  | maybeDone =>
      have hrun := hasRun_append_right [b] (ihSpeak (Or.inr (Or.inl hs)))
      cases b with
      | true =>
          simp only [process, hs]
          exact ⟨fun h => PauseState.noConfusion h, fun _ => hrun⟩
      | false =>
          simp only [process, hs]
          by_cases hth : d.pauseThresholdChunks ≤ d.silenceChunkCount + 1
          · rw [if_pos hth]
            exact ⟨fun h => PauseState.noConfusion h, fun _ => hrun⟩
          · rw [if_neg hth]
            exact ⟨fun h => PauseState.noConfusion h, fun _ => hrun⟩
  | turnComplete =>
      have hrun := hasRun_append_right [b] (ihSpeak (Or.inr (Or.inr hs)))
      cases b with
      | true =>
          simp only [process, hs]
          refine ⟨fun h => ?_, fun _ => hrun⟩
          rw [hs] at h; exact PauseState.noConfusion h
      | false =>
          simp only [process, hs]
          refine ⟨fun h => ?_, fun _ => hrun⟩
          rw [hs] at h; exact PauseState.noConfusion h

theorem speechInv_run (p m : Nat) (seq : List Bool) :
    SpeechInv m seq ((init p m).run seq) := by
  induction seq using List.reverseRecOn with
  | nil =>
      refine ⟨fun h => ?_, fun h => ?_⟩
      · exact PauseState.noConfusion h
      · rcases h with h | h | h <;> exact PauseState.noConfusion h
  | append_singleton s b ih =>
      rw [run_singleton_append]
      exact speechInv_step (by rw [run_minSpeechChunks]; rfl) ih b

/-- A nonzero fire count forces the run to end in `TURN_COMPLETE`
(the state is absorbing). -/
theorem fireCount_ne_zero_turnComplete :
    ∀ (seq : List Bool) (d : PauseDetector), d.fireCount seq ≠ 0 →
      (d.run seq).state = .turnComplete := by
  intro seq
  induction seq with
  | nil => intro d h; simp [fireCount] at h
  | cons b rest ih =>
      intro d h
      show ((d.process b).run rest).state = .turnComplete
      by_cases hfire :
          (d.process b).state = .turnComplete ∧ d.state ≠ .turnComplete
      · rw [run_turnComplete hfire.1 rest]
        exact hfire.1
      · rw [fireCount, if_neg hfire] at h
        simp only [Nat.zero_add] at h
        exact ih (d.process b) h

/-- Conversely, a run that ends in `TURN_COMPLETE` either started there or
fired the callback along the way. -/
theorem turnComplete_fireCount :
    ∀ (seq : List Bool) (d : PauseDetector),
      (d.run seq).state = .turnComplete →
      d.state = .turnComplete ∨ d.fireCount seq ≠ 0 := by
  intro seq
  induction seq with
  | nil => intro d h; exact Or.inl h
  | cons b rest ih =>
      intro d h
      rcases ih (d.process b) h with hpre | hfire
      · by_cases hd : d.state = .turnComplete
        · exact Or.inl hd
        · refine Or.inr ?_
          rw [fireCount, if_pos ⟨hpre, hd⟩]
          omega
      · refine Or.inr ?_
        rw [fireCount]
        omega

theorem fireCount_append (d : PauseDetector) (s t : List Bool) :
    d.fireCount (s ++ t) = d.fireCount s + (d.run s).fireCount t := by
  induction s generalizing d with
  | nil => simp [fireCount, run]
  | cons b rest ih =>
      show d.fireCount (b :: (rest ++ t)) = _
      rw [fireCount, ih (d.process b)]
      rw [fireCount]
      have : (d.run (b :: rest)) = ((d.process b).run rest) := rfl
      rw [this]
      omega

end PauseDetector

namespace AudioBuffer

theorem foldl_addFrame (frames : List (List Int)) (b : AudioBuffer) :
    frames.foldl addFrame b = b ++ frames := by
  induction frames generalizing b with
  | nil => simp
  | cons f rest ih =>
      rw [List.foldl_cons, ih]
      simp [addFrame]

end AudioBuffer

theorem chunkFrame_nil : chunkFrame [] = [] := rfl

theorem chunkFrame_small {audio : List Int} (h0 : 0 < audio.length)
    (h : audio.length ≤ AUDIO_CHUNK_SAMPLES) :
    chunkFrame audio =
      [audio ++ List.replicate (AUDIO_CHUNK_SAMPLES - audio.length) 0] := by
  unfold chunkFrame
  rw [AUDIO_CHUNK_SAMPLES] at *
  have hn : (audio.length + 512 - 1) / 512 = 1 := by omega
  rw [hn]
  have h1 : List.range 1 = [0] := rfl
  rw [h1, List.map_cons, List.map_nil]
  simp only [Nat.zero_mul, List.drop_zero]
  rw [List.take_of_length_le h]

theorem chunkFrame_cons {audio : List Int}
    (h : AUDIO_CHUNK_SAMPLES < audio.length) :
    chunkFrame audio =
      audio.take AUDIO_CHUNK_SAMPLES :: chunkFrame (audio.drop AUDIO_CHUNK_SAMPLES) := by
  unfold chunkFrame
  rw [AUDIO_CHUNK_SAMPLES] at *
  have hn : (audio.length + 512 - 1) / 512
      = ((audio.drop 512).length + 512 - 1) / 512 + 1 := by
    rw [List.length_drop]
    omega
  rw [hn, List.range_succ_eq_map]
  rw [List.map_cons, List.map_map]
  congr 1
  · have htake : ((audio.drop 0).take 512).length = 512 := by
      simp [List.length_take]
      omega
    simp only [Nat.zero_mul, List.drop_zero] at htake ⊢
    rw [htake]
    simp
  · apply List.map_congr_left
    intro i _
    simp only [Function.comp_apply]
    have hdrop : audio.drop (Nat.succ i * 512) = (audio.drop 512).drop (i * 512) := by
      rw [List.drop_drop]
      congr 1
      omega
    rw [hdrop]

theorem chunkFrame_join_aux :
    ∀ (n : Nat) (audio : List Int), audio.length ≤ n →
      ∃ k, (chunkFrame audio).flatten = audio ++ List.replicate k 0 := by
  intro n
  induction n with
  | zero =>
      intro audio h
      have : audio = [] := List.eq_nil_of_length_eq_zero (by omega)
      subst this
      exact ⟨0, rfl⟩
  | succ n ih =>
      intro audio h
      rcases Nat.eq_zero_or_pos audio.length with h0 | h0
      · have : audio = [] := List.eq_nil_of_length_eq_zero h0
        subst this
        exact ⟨0, rfl⟩
      · by_cases hle : audio.length ≤ AUDIO_CHUNK_SAMPLES
        · refine ⟨AUDIO_CHUNK_SAMPLES - audio.length, ?_⟩
          rw [chunkFrame_small h0 hle]
          simp
        · rw [chunkFrame_cons (by omega)]
          obtain ⟨k, hk⟩ := ih (audio.drop AUDIO_CHUNK_SAMPLES)
            (by rw [List.length_drop, AUDIO_CHUNK_SAMPLES] at *; omega)
          refine ⟨k, ?_⟩
          rw [List.flatten_cons, hk, ← List.append_assoc, List.take_append_drop]

/-! ## Claim theorems for the audio layer -/

/-- C1: for every sequence of `is_speech` inputs fed to
`PauseDetector.process` since construction (or since `reset`, which restores
the freshly constructed mutable state), the detector never reaches
`TURN_COMPLETE` — and the `on_turn_complete` callback never fires — unless at
least `min_speech_chunks` consecutive speech chunks occurred somewhere in the
sequence. The processed inputs form the prefix `pre` of the full sequence
`seq`. -/
theorem pauseDetector_no_turnComplete_without_speech_run
    (p m : Nat) (seq pre post : List Bool) (hsplit : seq = pre ++ post)
    (h : ((PauseDetector.init p m).run pre).state = .turnComplete ∨
         (PauseDetector.init p m).fireCount pre ≠ 0) :
    hasRun m seq := by
  have hstate : ((PauseDetector.init p m).run pre).state = .turnComplete := by
    rcases h with h | h
    · exact h
    · exact PauseDetector.fireCount_ne_zero_turnComplete pre _ h
  have inv := PauseDetector.speechInv_run p m pre
  have hpre : hasRun m pre := inv.2 (Or.inr (Or.inr hstate))
  rw [hsplit]
  exact hasRun_append_right post hpre

theorem pauseDetector_no_turnComplete_without_speech_run_witness :
    hasRun 2 [true, true, false, false] :=
  pauseDetector_no_turnComplete_without_speech_run 2 2
    [true, true, false, false] [true, true, false, false] [] (by simp)
    (Or.inl (by decide))

/-- C5: with `min_speech_chunks = 10` and `pause_threshold_chunks = 67`,
feeding 10 speech chunks then 70 silence chunks reaches `TURN_COMPLETE` with
exactly one `on_turn_complete` firing, while feeding 10 speech chunks, 30
silence chunks and 5 more speech chunks leaves the detector in `SPEAKING`
and never passes through `TURN_COMPLETE` at any prefix. -/
theorem pauseDetector_example_runs :
    (((PauseDetector.init 67 10).run
        (List.replicate 10 true ++ List.replicate 70 false)).state = .turnComplete
      ∧ (PauseDetector.init 67 10).fireCount
          (List.replicate 10 true ++ List.replicate 70 false) = 1)
    ∧ (((PauseDetector.init 67 10).run
          (List.replicate 10 true ++ List.replicate 30 false ++ List.replicate 5 true)).state
            = .speaking
      ∧ ∀ pre post,
          List.replicate 10 true ++ List.replicate 30 false ++ List.replicate 5 true
            = pre ++ post →
          ((PauseDetector.init 67 10).run pre).state ≠ .turnComplete) := by
  refine ⟨⟨by decide, by decide⟩, by decide, ?_⟩
  intro pre post hsplit hcomplete
  have hfull : (PauseDetector.init 67 10).fireCount
      (List.replicate 10 true ++ List.replicate 30 false ++ List.replicate 5 true) = 0 := by
    decide
  rw [hsplit, PauseDetector.fireCount_append] at hfull
  have hpre : (PauseDetector.init 67 10).fireCount pre = 0 := by omega
  rcases PauseDetector.turnComplete_fireCount pre _ hcomplete with hinit | hne
  · exact absurd hinit (by decide)
  · exact hne hpre

theorem pauseDetector_example_runs_witness :
    ((PauseDetector.init 67 10).run []).state ≠ .turnComplete :=
  pauseDetector_example_runs.2.2 []
    (List.replicate 10 true ++ List.replicate 30 false ++ List.replicate 5 true) rfl

/-- C4: draining an accumulator that received any sequence of added chunks
since the last clear returns audio whose sample count is the sum of the
added chunk lengths (no samples lost or duplicated), drains the buffer
empty, and `clear` followed by `drain` yields empty audio. -/
theorem audioBuffer_drain_conserves_samples (frames : List (List Int)) (b : AudioBuffer) :
    ((AudioBuffer.drain (frames.foldl AudioBuffer.addFrame AudioBuffer.empty)).1).length
        = (frames.map List.length).sum
    ∧ (AudioBuffer.drain (frames.foldl AudioBuffer.addFrame AudioBuffer.empty)).2
        = AudioBuffer.empty
    ∧ AudioBuffer.drain (AudioBuffer.clear b) = ([], AudioBuffer.empty) := by
  refine ⟨?_, rfl, rfl⟩
  rw [AudioBuffer.foldl_addFrame]
  simp [AudioBuffer.drain, AudioBuffer.empty, List.length_flatten]

/-- C9: every inbound frame is chunked independently into slices of exactly
`AUDIO_CHUNK_SAMPLES = 512` samples — every produced chunk has length 512 —
and the chunks are the frame itself followed by zero padding on the final
partial chunk (nothing is carried into any other frame). -/
theorem chunkFrame_chunks_are_full_size (audio : List Int) :
    (∀ c ∈ chunkFrame audio, c.length = AUDIO_CHUNK_SAMPLES)
    ∧ ∃ k, (chunkFrame audio).flatten = audio ++ List.replicate k 0 := by
  constructor
  · intro c hc
    unfold chunkFrame at hc
    rw [List.mem_map] at hc
    obtain ⟨i, _, rfl⟩ := hc
    have hlen : ((audio.drop (i * AUDIO_CHUNK_SAMPLES)).take AUDIO_CHUNK_SAMPLES).length
        ≤ AUDIO_CHUNK_SAMPLES := by
      rw [List.length_take]
      omega
    simp only [List.length_append, List.length_replicate]
    omega
  · exact chunkFrame_join_aux audio.length audio (Nat.le_refl _)

theorem chunkFrame_chunks_are_full_size_witness :
    ([1, 2, 3] ++ List.replicate 509 (0 : Int)).length = AUDIO_CHUNK_SAMPLES :=
  (chunkFrame_chunks_are_full_size [1, 2, 3]).1 _ (by
    rw [chunkFrame_small (by decide) (by decide)]
    simp [AUDIO_CHUNK_SAMPLES])

/-! ## Conversation state machine (`engine/conversation_state.py`) -/

/-! ## Helper lemmas for the orchestration layer -/

theorem ConversationStateMachine.transitionTo_of_mem
    {sm : ConversationStateMachine} {t : ConversationState}
    (h : t ∈ validTransitions sm.state) :
    sm.transitionTo t =
      .ok { state := t
            transitionHistory :=
              if 100 < (sm.transitionHistory ++ [(sm.state, t)]).length then
                lastSlice 50 (sm.transitionHistory ++ [(sm.state, t)])
              else sm.transitionHistory ++ [(sm.state, t)] } := by
  unfold ConversationStateMachine.transitionTo
  rw [if_pos h]

theorem ConversationStateMachine.transitionTo_mem
    {sm : ConversationStateMachine} {t : ConversationState}
    (h : t ∈ validTransitions sm.state) :
    ∃ sm', sm.transitionTo t = .ok sm' ∧ sm'.state = t :=
  ⟨_, ConversationStateMachine.transitionTo_of_mem h, rfl⟩

/-- A `process` step that lands in `SILENCE` or `SPEECH_STARTED` must have
started in one of those two states. -/
theorem PauseDetector.process_state_pre {d : PauseDetector} {b : Bool}
    (h : (d.process b).state = .silence ∨ (d.process b).state = .speechStarted) :
    d.state = .silence ∨ d.state = .speechStarted := by
  cases hd : d.state with
  | silence => exact Or.inl rfl
  | speechStarted => exact Or.inr rfl
  | speaking =>
      exfalso
      cases b <;> simp only [process, hd] at h <;>
        rcases h with h | h <;> exact PauseState.noConfusion h
  | maybeDone =>
      exfalso
      cases b with
      | true =>
          simp only [process, hd] at h
          rcases h with h | h <;> exact PauseState.noConfusion h
      | false =>
          simp only [process, hd] at h
          split at h <;> rcases h with h | h <;> exact PauseState.noConfusion h
  | turnComplete =>
      exfalso
      cases b <;> simp only [process, hd] at h <;>
        rcases h with h | h <;> exact PauseState.noConfusion h

theorem captureInv_step {χ : Type} {s : CaptureState χ} (hinv : CaptureInv s)
    (c : χ) (b : Bool) : CaptureInv (processChunk s c b) := by
  intro hstate
  unfold processChunk at hstate ⊢
  by_cases h1 : (s.detector.process b).state = .speaking
      ∨ (s.detector.process b).state = .maybeDone
  · rw [if_pos h1] at hstate ⊢
    exfalso
    rcases hstate with h | h <;> rcases h1 with h1 | h1 <;> rw [h] at h1 <;>
      exact PauseState.noConfusion h1
  · rw [if_neg h1] at hstate ⊢
    by_cases h2 : (s.detector.process b).state = .turnComplete
    · rw [if_pos h2] at hstate ⊢
      by_cases h3 : s.buffer.isEmpty
      · rw [if_pos h3] at hstate ⊢
        exact List.isEmpty_iff.mp h3
      · rw [if_neg h3] at hstate ⊢
    · rw [if_neg h2] at hstate ⊢
      by_cases h4 : (s.detector.process b).state = .silence
          ∧ s.detector.state = .speechStarted
      · rw [if_pos h4] at hstate ⊢
      · rw [if_neg h4] at hstate ⊢
        exact hinv (PauseDetector.process_state_pre hstate)

theorem captureInv_run {χ : Type} {s : CaptureState χ} (hinv : CaptureInv s)
    (ins : List (χ × Bool)) : CaptureInv (runCapture s ins) := by
  induction ins generalizing s with
  | nil => exact hinv
  | cons cb rest ih => exact ih (captureInv_step hinv cb.1 cb.2)


/-! ## Claim theorems for the conversation engine -/

/-- C6: `transition_to(target)` with a target outside the current state's
allowed set reports a hard invalid-transition error naming the offending
(from, to) pair and performs no mutation; in particular Idle → Processing is
rejected while Idle → Listening succeeds and moves the machine to
`LISTENING`. -/
theorem conversationSM_rejects_invalid_transitions :
    (∀ (sm : ConversationStateMachine) (t : ConversationState),
        t ∉ validTransitions sm.state →
        sm.transitionTo t = .error (sm.state, t))
    ∧ ConversationStateMachine.init.transitionTo .processing
        = .error (.idle, .processing)
    ∧ ∃ sm', ConversationStateMachine.init.transitionTo .listening = .ok sm'
        ∧ sm'.state = .listening := by
  refine ⟨fun sm t h => ?_, rfl, ⟨_, rfl, rfl⟩⟩
  unfold ConversationStateMachine.transitionTo
  rw [if_neg h]

theorem conversationSM_rejects_invalid_transitions_witness :
    ConversationStateMachine.init.transitionTo .processing
      = .error (.idle, .processing) :=
  conversationSM_rejects_invalid_transitions.1 ConversationStateMachine.init
    .processing (by decide)

/-- C3: `decide` follows the spec's decision order exactly (earlier rules
shadow later ones): no buffer → NONE; expired → DROP; topic changed → DROP;
absent score → DROP; score at or above the threshold → MERGE when merging is
enabled else CONTINUE; otherwise DROP. The shipped defaults are a 10 s max
age and 0.6 relevance threshold, and with them a fresh buffer at relevance
0.8 merges while the identical call on an expired buffer drops. -/
theorem bufferManager_decide_follows_spec_order
    (cfg : BufferConfig) (m : BufferManager) (input : String)
    (rel : Option ℚ) (tc : Bool) (now : ℚ) :
    (BufferManager.decide cfg m input rel tc now).1.1
        = decideActionSpec cfg m rel tc now
    ∧ defaultBufferConfig.BUFFER_MAX_AGE_MS = 10000
    ∧ defaultBufferConfig.BUFFER_RELEVANCE_THRESHOLD = 0.6
    ∧ (BufferManager.decide defaultBufferConfig sampleBufferManager "u"
        (some 0.8) false 1).1.1 = .MERGE
    ∧ (BufferManager.decide defaultBufferConfig sampleBufferManager "u"
        (some 0.8) false 20).1.1 = .DROP := by
  refine ⟨?_, rfl, rfl, by with_unfolding_all decide, by with_unfolding_all decide⟩
  cases hb : m.buffer with
  | none => simp [BufferManager.decide, decideActionSpec, hb]
  | some b =>
      by_cases hexp : cfg.BUFFER_MAX_AGE_MS < b.ageMs now
      · simp [BufferManager.decide, decideActionSpec, hb,
              BufferedResponse.isExpired, hexp]
      · cases tc with
        | true =>
            simp [BufferManager.decide, decideActionSpec, hb,
                  BufferedResponse.isExpired, hexp]
        | false =>
            cases rel with
            | none =>
                simp [BufferManager.decide, decideActionSpec, hb,
                      BufferedResponse.isExpired, hexp]
            | some score =>
                by_cases hth : cfg.BUFFER_RELEVANCE_THRESHOLD ≤ score
                · cases hme : cfg.BUFFER_MERGE_ENABLED <;>
                    simp [BufferManager.decide, decideActionSpec, hb,
                          BufferedResponse.isExpired, hexp, hth, hme]
                · simp [BufferManager.decide, decideActionSpec, hb,
                        BufferedResponse.isExpired, hexp, hth]

/-- C7 (counterexample): a `decide` call made while no buffer is stored
returns early and appends nothing to the decision history, contradicting the
claim that every call appends a decision record. -/
theorem bufferManager_decide_no_buffer_appends_nothing :
    ¬ ((BufferManager.decide defaultBufferConfig BufferManager.init
          "x" none false 0).2.decisionHistory.length
        = BufferManager.init.decisionHistory.length + 1) := by
  decide

/-- When a buffer is present, `decide` appends exactly one record to the
(bounded) history, carrying the returned action, the reason, the buffer age,
the passed score and topic flag, and the call timestamp. -/
theorem BufferManager.decide_appends_record
    (cfg : BufferConfig) (m : BufferManager) (input : String)
    (rel : Option ℚ) (tc : Bool) (now : ℚ) (b : BufferedResponse)
    (hb : m.buffer = some b) :
    ∃ reason : DecisionReason,
      (BufferManager.decide cfg m input rel tc now).2.decisionHistory
        = BufferManager.boundHistory (m.decisionHistory ++
            [{ action := (BufferManager.decide cfg m input rel tc now).1.1
               reason := reason
               bufferAgeMs := b.ageMs now
               relevanceScore := rel
               topicChanged := tc
               timestamp := now }]) := by
  by_cases hexp : b.isExpired cfg now = true
  · exact ⟨.expired, by simp [BufferManager.decide, hb, hexp]⟩
  · cases tc with
    | true => exact ⟨.userChangedTopics, by simp [BufferManager.decide, hb, hexp]⟩
    | false =>
        cases rel with
        | none => exact ⟨.noRelevanceScore, by simp [BufferManager.decide, hb, hexp]⟩
        | some score =>
            by_cases hth : cfg.BUFFER_RELEVANCE_THRESHOLD ≤ score
            · cases hme : cfg.BUFFER_MERGE_ENABLED with
              | true =>
                  exact ⟨.relevantMerging,
                    by simp [BufferManager.decide, hb, hexp, hth, hme]⟩
              | false =>
                  exact ⟨.relevantUsingAsIs,
                    by simp [BufferManager.decide, hb, hexp, hth, hme]⟩
            · exact ⟨.lowRelevance, by simp [BufferManager.decide, hb, hexp, hth]⟩

theorem BufferManager.boundHistory_length (h : List DecisionRecord)
    (hle : h.length ≤ 51) : (BufferManager.boundHistory h).length ≤ 50 := by
  unfold BufferManager.boundHistory lastSlice
  split
  · rw [if_neg (by omega)]
    rw [List.length_drop]
    omega
  · omega

/-- C7 (amended): every `decide` call leaves the stored buffer empty
afterwards; a call with no buffer returns `(NONE, None)` with the state
untouched (appending nothing), while a call with a buffer present appends
one decision record carrying the action, reason, score and timestamp to the
history, which is trimmed to the most recent 25 entries once it exceeds 50
(so it never grows past 50). -/
theorem bufferManager_decide_clears_and_logs
    (cfg : BufferConfig) (m : BufferManager) (input : String)
    (rel : Option ℚ) (tc : Bool) (now : ℚ) :
    ((BufferManager.decide cfg m input rel tc now).2.buffer = none)
    ∧ (m.buffer = none →
        BufferManager.decide cfg m input rel tc now = ((.NONE, none), m))
    ∧ (∀ b, m.buffer = some b →
        ∃ reason : DecisionReason,
          (BufferManager.decide cfg m input rel tc now).2.decisionHistory
            = BufferManager.boundHistory (m.decisionHistory ++
                [{ action := (BufferManager.decide cfg m input rel tc now).1.1
                   reason := reason
                   bufferAgeMs := b.ageMs now
                   relevanceScore := rel
                   topicChanged := tc
                   timestamp := now }]))
    ∧ (m.decisionHistory.length ≤ 50 →
        (BufferManager.decide cfg m input rel tc now).2.decisionHistory.length ≤ 50) := by
  refine ⟨?_, fun hb => ?_, fun b hb => ?_, fun hlen => ?_⟩
  · cases hb : m.buffer with
    | none => simp [BufferManager.decide, hb]
    | some b => simp [BufferManager.decide, hb]
  · simp [BufferManager.decide, hb]
  · exact BufferManager.decide_appends_record cfg m input rel tc now b hb
  · cases hb : m.buffer with
    | none =>
        have h2 : (BufferManager.decide cfg m input rel tc now).2 = m := by
          simp [BufferManager.decide, hb]
        rw [h2]
        exact hlen
    | some b =>
        obtain ⟨reason, hr⟩ :=
          BufferManager.decide_appends_record cfg m input rel tc now b hb
        rw [hr]
        apply BufferManager.boundHistory_length
        rw [List.length_append]
        simp only [List.length_cons, List.length_nil]
        omega

theorem bufferManager_decide_clears_and_logs_witness :
    ∃ reason : DecisionReason,
      (BufferManager.decide defaultBufferConfig sampleBufferManager
          "u" (some 0.8) false 1).2.decisionHistory
        = BufferManager.boundHistory (sampleBufferManager.decisionHistory ++
            [{ action := (BufferManager.decide defaultBufferConfig sampleBufferManager
                  "u" (some 0.8) false 1).1.1
               reason := reason
               bufferAgeMs := sampleBuffered.ageMs 1
               relevanceScore := some 0.8
               topicChanged := false
               timestamp := 1 }]) :=
  (bufferManager_decide_clears_and_logs defaultBufferConfig sampleBufferManager
    "u" (some 0.8) false 1).2.2.1 sampleBuffered rfl

/-- C2 is refuted by the code (the spec states the intended behaviour):
with the conversation in `Listening` and one pending non-empty completed
turn, an STT that transcribes "hello" and an LLM generate hook that raises
make `process_turn` let the exception escape unhandled — the conversation
state is left in `Processing` (not reverted to `Listening`) and the partial
user turn has already been persisted to conversation memory. -/
theorem processTurn_exception_escapes :
    ∃ tmErr : TurnManager,
      TurnManager.processTurn failingCollaborators defaultBufferConfig 0
          listeningTurnManager
        = .error ("llm failure", tmErr)
      ∧ tmErr.conv.state = .processing
      ∧ tmErr.memory.turns = [("user", "hello")] :=
  ⟨_, rfl, rfl, rfl⟩

/-- C8: when `process_turn` pops zero-length turn audio, or the STT
collaborator returns a transcript that is empty after stripping whitespace,
it emits no turn result, appends nothing to conversation memory, and the
conversation state is (back) in `Listening` afterwards. -/
theorem processTurn_empty_input_noop
    (env : Collaborators) (cfg : BufferConfig) (now : ℚ) (tm : TurnManager)
    (audioData : List Int) (rest : List (List Int)) (tr : TranscriptionResult)
    (hconv : tm.conv.state = .listening)
    (hq : tm.completedTurns = audioData :: rest) :
    (audioData = [] →
      TurnManager.processTurn env cfg now tm
          = .ok (none, { tm with completedTurns := rest })
      ∧ ({ tm with completedTurns := rest } : TurnManager).conv.state = .listening
      ∧ ({ tm with completedTurns := rest } : TurnManager).memory = tm.memory)
    ∧ (audioData ≠ [] → env.sttTranscribe audioData = .ok tr →
        pyStrip tr.text = "" →
      ∃ tm2 : TurnManager,
        TurnManager.processTurn env cfg now tm = .ok (none, tm2)
        ∧ tm2.conv.state = .listening
        ∧ tm2.memory = tm.memory) := by
  constructor
  · intro h0
    subst h0
    refine ⟨?_, hconv, rfl⟩
    simp [TurnManager.processTurn, hq]
  · intro hne hstt hstrip
    have hmem : ConversationState.processing ∈ validTransitions tm.conv.state := by
      rw [hconv]
      decide
    obtain ⟨conv1, hc1, hs1⟩ := ConversationStateMachine.transitionTo_mem hmem
    have hmem2 : ConversationState.listening ∈ validTransitions conv1.state := by
      rw [hs1]
      decide
    obtain ⟨conv2, hc2, hs2⟩ := ConversationStateMachine.transitionTo_mem hmem2
    have hlen : ¬ (audioData.length = 0) := by
      cases audioData with
      | nil => exact absurd rfl hne
      | cons a as => simp
    refine ⟨{ tm with completedTurns := rest, conv := conv2 }, ?_, hs2, rfl⟩
    simp only [TurnManager.processTurn, hq, hc1, hstt, hstrip, hc2, if_neg hlen]
    simp

theorem processTurn_empty_input_noop_witness :
    ∃ tm2 : TurnManager,
      TurnManager.processTurn whitespaceCollaborators defaultBufferConfig 0
          listeningTurnManager = .ok (none, tm2)
      ∧ tm2.conv.state = .listening
      ∧ tm2.memory = listeningTurnManager.memory :=
  (processTurn_empty_input_noop whitespaceCollaborators defaultBufferConfig 0
      listeningTurnManager [1] [] { text := "   ", confidence := 1 } rfl rfl).2
    (by decide) rfl rfl

/-- C10: a chunk whose processing leaves the pause detector in `SILENCE` or
`SPEECH_STARTED` is never in the audio accumulator (the buffer is empty
whenever the detector sits in those states), the chunk on which the detector
enters `SPEAKING` — the `min_speech_chunks`-th consecutive speech chunk —
becomes the first chunk of the turn audio, and in a concrete run with
`min_speech_chunks = 2` the completed turn audio is `[[2, 3]]`: it begins
with speech chunk 2 (the one entering `SPEAKING`) and the debounce prefix
chunk 1 is absent. -/
theorem capture_omits_debounce_chunks (p m : Nat) :
    (∀ ins : List (Nat × Bool),
        ((runCapture (initCapture Nat p m) ins).detector.state = .silence
          ∨ (runCapture (initCapture Nat p m) ins).detector.state = .speechStarted) →
        (runCapture (initCapture Nat p m) ins).buffer = [])
    ∧ (∀ (ins : List (Nat × Bool)) (c : Nat) (b : Bool),
        (runCapture (initCapture Nat p m) ins).detector.state = .speechStarted →
        (processChunk (runCapture (initCapture Nat p m) ins) c b).detector.state
            = .speaking →
        (processChunk (runCapture (initCapture Nat p m) ins) c b).buffer = [c])
    ∧ (runCapture (initCapture Nat 2 2)
        [(1, true), (2, true), (3, false), (4, false)]).completedTurns = [[2, 3]] := by
  refine ⟨?_, ?_, by decide⟩
  · intro ins h
    exact captureInv_run (fun _ => rfl) ins h
  · intro ins c b hss hsp
    have hbuf : (runCapture (initCapture Nat p m) ins).buffer = [] :=
      captureInv_run (fun _ => rfl) ins (Or.inr hss)
    set s := runCapture (initCapture Nat p m) ins with hsdef
    unfold processChunk at hsp ⊢
    by_cases h1 : (s.detector.process b).state = .speaking
        ∨ (s.detector.process b).state = .maybeDone
    · rw [if_pos h1, hbuf]
      simp
    · exfalso
      rw [if_neg h1] at hsp
      by_cases h2 : (s.detector.process b).state = .turnComplete
      · rw [if_pos h2] at hsp
        by_cases h3 : s.buffer.isEmpty
        · rw [if_pos h3] at hsp
          exact PauseState.noConfusion hsp
        · rw [if_neg h3] at hsp
          exact PauseState.noConfusion hsp
      · rw [if_neg h2] at hsp
        by_cases h4 : (s.detector.process b).state = .silence
            ∧ s.detector.state = .speechStarted
        · rw [if_pos h4] at hsp
          exact h1 (Or.inl hsp)
        · rw [if_neg h4] at hsp
          exact h1 (Or.inl hsp)

theorem capture_omits_debounce_chunks_witness :
    (runCapture (initCapture Nat 2 2) []).buffer = [] :=
  (capture_omits_debounce_chunks 2 2).1 [] (Or.inl rfl)

end IELTSCoach
